import Mathlib

/-!
Verification of the twitchchat message-decoding core.

Strings are modelled as `List Char`; every definition in the `Twitchchat`
namespace is a shallow embedding of the corresponding Rust item (the source
file and item are named in each doc comment).  Definitions whose doc comment
starts with "Modelled from the spec:" embed parts of the crate that are not
present under `src/` (only their callers or superseded revisions are) and
follow the specification's wording instead.
-/

namespace Twitchchat

/-- Rust `str::split(char)` on a character-list string: splits on every
occurrence of `sep`; the empty string yields one empty piece, and a trailing
separator yields a trailing empty piece. -/
def splitCh (sep : Char) : List Char → List (List Char)
  | [] => [[]]
  | c :: cs =>
    if c = sep then [] :: splitCh sep cs
    else
      match splitCh sep cs with
      | [] => [[c]]
      | p :: ps => (c :: p) :: ps

/-- Embedding of `split_pair` from `src/twitch/attributes.rs`: take the first
two pieces of `str::split`, the second defaulting to the empty string.  The
first `next()` is fallible in the source (hence the `Option`), though it can
never actually fail. -/
def split_pair (input : List Char) (sep : Char) : Option (List Char × List Char) :=
  match splitCh sep input with
  | [] => none
  | a :: rest => some (a, rest.headD [])

/-- Numeric value of an ASCII digit, `none` on any other character. -/
def digit? (c : Char) : Option Nat :=
  if c.isDigit then some (c.toNat - 48) else none

/-- Value of a digit string read left to right (no validation). -/
def natOfDigits (ds : List Char) : Nat :=
  ds.foldl (fun a c => a * 10 + (c.toNat - 48)) 0

/-- Accumulator loop of Rust's unsigned `from_str`: one digit per step with an
overflow check against the type's maximum. -/
def parseUnsignedGo (max : Nat) : Nat → List Char → Option Nat
  | acc, [] => some acc
  | acc, c :: rest =>
    match digit? c with
    | none => none
    | some d =>
      if acc * 10 + d ≤ max then parseUnsignedGo max (acc * 10 + d) rest
      else none

/-- Embedding of Rust `uN::from_str` (used via `str::parse`): an optional
leading `+`, then one or more ASCII digits, rejecting values above `max`. -/
def rustParseUnsigned (max : Nat) (cs : List Char) : Option Nat :=
  let ds := if cs.head? = some '+' then cs.drop 1 else cs
  if ds.isEmpty then none else parseUnsignedGo max 0 ds

/-- Maximum value of Rust `u64` (and of `usize` on the 64-bit targets the
crate runs on). -/
def u64max : Nat := 2 ^ 64 - 1

/-- Maximum value of Rust `u16`. -/
def u16max : Nat := 65535

/-- Maximum value of Rust `u8`. -/
def u8max : Nat := 255

/-- Half-open `Range<u16>` used for message positions, as a start/end pair. -/
abbrev MsgRange : Type := Nat × Nat

/-- Embedding of `RangePosition` from `src/twitch/attributes.rs`. -/
inductive RangePosition where
  | Left
  | Right
deriving DecidableEq

/-- Embedding of `SeparatorInfo` from `src/twitch/attributes.rs`. -/
structure SeparatorInfo where
  element_separator : Char
  range_attribute_separator : Char
  attribute_separator : Char
  range_separator : Char
  range_position : RangePosition
deriving DecidableEq

/-- One implementation of the `Attribute<T>` trait of
`src/twitch/attributes.rs`, bundled as data: the attribute parser
(`T::from_str`), the constructor `new` and the separator configuration. -/
structure AttributeImpl (T S : Type) where
  fromStr : List Char → Option T
  new : List MsgRange → List T → Option S
  sepInfo : SeparatorInfo

/-- Embedding of `Attribute::parse_ranges`: split on the range separator,
split each piece once on `-`, keep the pieces whose two sides parse as
`u16`. -/
def parse_ranges (si : SeparatorInfo) (input : List Char) : List MsgRange :=
  ((splitCh si.range_separator input).filterMap fun s => split_pair s '-').filterMap
    fun p => (rustParseUnsigned u16max p.1).bind
      fun s => (rustParseUnsigned u16max p.2).map fun e => (s, e)

/-- Embedding of `Attribute::parse_attributes`: split on the attribute
separator and keep the pieces that `T::from_str` accepts. -/
def parse_attributes {T : Type} (fromStr : List Char → Option T)
    (si : SeparatorInfo) (input : List Char) : List T :=
  (splitCh si.attribute_separator input).filterMap fromStr

/-- Embedding of `Attribute::parse_item`: split the entry once with
`split_pair` on the range/attribute separator, orient the two sides by
`range_position`, parse both sides and hand them to `new`. -/
def parse_item {T S : Type} (impl : AttributeImpl T S) (item : List Char) : Option S :=
  (split_pair item impl.sepInfo.range_attribute_separator).bind fun lr =>
    let ra := match impl.sepInfo.range_position with
      | .Left => (lr.1, lr.2)
      | .Right => (lr.2, lr.1)
    impl.new (parse_ranges impl.sepInfo ra.1)
      (parse_attributes impl.fromStr impl.sepInfo ra.2)

/-- Embedding of `Attribute::parse`: split the tag value on the element
separator and keep the entries `parse_item` accepts. -/
def attrParse {T S : Type} (impl : AttributeImpl T S) (input : List Char) : List S :=
  (splitCh impl.sepInfo.element_separator input).filterMap (parse_item impl)

/-- Embedding of `ScoreType` from `src/twitch/flags.rs`. -/
inductive ScoreType where
  | Aggressive
  | Identity
  | Profanity
  | Sexual
deriving DecidableEq

/-- Embedding of `Score` from `src/twitch/flags.rs`: an automod score such as
`A.6`. -/
structure Score where
  scoreType : ScoreType
  severity : Nat
deriving DecidableEq

/-- Embedding of `impl FromStr for Score`: split once on `.`, match the type
letter, parse the severity as `u8`. -/
def Score.fromStr (s : List Char) : Option Score :=
  (split_pair s '.').bind fun p =>
    (if p.1 = "A".data then some ScoreType.Aggressive
      else if p.1 = "I".data then some ScoreType.Identity
      else if p.1 = "P".data then some ScoreType.Profanity
      else if p.1 = "S".data then some ScoreType.Sexual
      else none).bind
    fun t => (rustParseUnsigned u8max p.2).map fun v => Score.mk t v

/-- Embedding of `Flag` from `src/twitch/flags.rs`: one flagged term, its
character range and its automod scores. -/
structure Flag where
  range : MsgRange
  scores : List Score
deriving DecidableEq

/-- Embedding of `Flag`'s `Attribute::new`: the first parsed range is
required (the entry is rejected without one), the scores are collected. -/
def Flag.new (ranges : List MsgRange) (scores : List Score) : Option Flag :=
  ranges.head?.map fun r => Flag.mk r scores

/-- The `Attribute<Score>` implementation of `Flag`, with the separator
configuration from `src/twitch/flags.rs` (the range separator is a newline,
which never occurs). -/
def Flag.impl : AttributeImpl Score Flag :=
  AttributeImpl.mk Score.fromStr Flag.new
    (SeparatorInfo.mk ',' ':' '/' '\n' RangePosition.Left)

/-- Decoding of a whole `flags` tag value: `Attribute::parse` at `Flag`. -/
def Flag.parse (input : List Char) : List Flag :=
  attrParse Flag.impl input

/-- Formalisation of the claim's wording of the attribution algorithm at
`Flag`: split on the entry separator; split each piece ONCE on the reference
separator, so that attrs-text is the whole remainder after the first `:`;
drop the entry when the reference yields no range; split attrs-text on the
attribute separator and keep the scores that parse; keep survivors in
order. -/
def Flag.parseClaimC1 (input : List Char) : List Flag :=
  (splitCh ',' input).filterMap fun piece =>
    let refText := piece.takeWhile fun c => c ≠ ':'
    let attrsText := (piece.dropWhile fun c => c ≠ ':').drop 1
    (parse_ranges Flag.impl.sepInfo refText).head?.map fun r =>
      Flag.mk r ((splitCh '/' attrsText).filterMap Score.fromStr)

/-- The amended wording of claim C1 at `Flag`: as `Flag.parseClaimC1`, except
that attrs-text is only the text between the first and second occurrence of
the reference separator (anything after a second occurrence is discarded,
matching `split_pair`). -/
def Flag.parseAmendedC1 (input : List Char) : List Flag :=
  (splitCh ',' input).filterMap fun piece =>
    let refText := piece.takeWhile fun c => c ≠ ':'
    let attrsText :=
      ((piece.dropWhile fun c => c ≠ ':').drop 1).takeWhile fun c => c ≠ ':'
    (parse_ranges Flag.impl.sepInfo refText).head?.map fun r =>
      Flag.mk r ((splitCh '/' attrsText).filterMap Score.fromStr)

/-- Embedding of `FollowersOnly` from `src/messages/room_state.rs`; the
`Limit` payload is the `Duration`'s whole-second count. -/
inductive FollowersOnly where
  | Disabled
  | All
  | Limit (secs : Nat)
deriving DecidableEq

/-- Embedding of `impl FromStr for FollowersOnly`: literal `"-1"` and `"0"`
first, then `u64::from_str` with the parsed count multiplied by 86400 in
`u64` arithmetic (release-profile wrapping, hence the reduction modulo
`2 ^ 64`). -/
def FollowersOnly.from_str (s : List Char) : Except Unit FollowersOnly :=
  if s = "-1".data then Except.ok FollowersOnly.Disabled
  else if s = "0".data then Except.ok FollowersOnly.All
  else
    match rustParseUnsigned u64max s with
    | some n => Except.ok (FollowersOnly.Limit ((n * 86400) % 2 ^ 64))
    | none => Except.error ()

/-- Canonical-decimal-representation predicate used to formalise claim C4's
phrase "every positive decimal integer N": `s` is the plain base-10 numeral
of the positive integer `n` (nonempty, all digits, no leading zero). -/
def reprPos (s : List Char) (n : Nat) : Prop :=
  0 < n ∧ s ≠ [] ∧ s.all Char.isDigit ∧ s.head? ≠ some '0' ∧ natOfDigits s = n

/-- Formalisation of claim C4 as stated: `"-1"` gives `Disabled`, `"0"` gives
`All`, the numeral of every positive integer `n` gives `Limit` of exactly
`n * 86400` seconds, and every other input is a parse error. -/
def claimC4Statement : Prop :=
  FollowersOnly.from_str "-1".data = Except.ok FollowersOnly.Disabled ∧
  FollowersOnly.from_str "0".data = Except.ok FollowersOnly.All ∧
  (∀ s n, reprPos s n →
    FollowersOnly.from_str s = Except.ok (FollowersOnly.Limit (n * 86400))) ∧
  (∀ s, s ≠ "-1".data → s ≠ "0".data → (∀ n, ¬ reprPos s n) →
    FollowersOnly.from_str s = Except.error ())

/-- Formalisation of claim C5's acceptance condition as stated: the string is
exactly a type letter in A, I, P, S followed by `.` and one digit. -/
def scoreShapeClaimC5 (s : List Char) : Bool :=
  match s with
  | [t, '.', d] => (t == 'A' || t == 'I' || t == 'P' || t == 'S') && d.isDigit
  | _ => false

/-- Modelled from the spec: `MaybeOwned` (the owned-or-borrowed buffer of the
crate root, not under `src/`) exclusively owns its bytes or borrows a
caller-supplied string; both states expose the same text. -/
inductive MaybeOwned where
  | Owned (text : List Char)
  | Borrowed (text : List Char)
deriving DecidableEq

/-- The text stored in a buffer, whichever state it is in. -/
def MaybeOwned.text : MaybeOwned → List Char
  | .Owned t => t
  | .Borrowed t => t

/-- Modelled from the spec: `MaybeOwned::into_owned` copies the backing bytes
into an exclusively owned buffer with identical content. -/
def MaybeOwned.intoOwned (m : MaybeOwned) : MaybeOwned :=
  MaybeOwned.Owned m.text

/-- Modelled from the spec: `MaybeOwnedIndex` (crate root, not under `src/`),
a half-open offset pair into a buffer, stored by value. -/
structure Idx where
  first : Nat
  last : Nat
deriving DecidableEq

/-- Slicing a buffer's text at an offset pair. -/
def sl (raw : List Char) (i : Idx) : List Char :=
  (raw.drop i.first).take (i.last - i.first)

/-- Modelled from the spec: the tag index (`TagIndices`, crate `irc` module,
not under `src/`) is an ordered sequence of key-range/value-range pairs. -/
abbrev TagIndices : Type := List (Idx × Idx)

/-- Modelled from the spec: `Tags::get` resolves a key by exact-match linear
scan over the tag index and returns the sliced value text of the first
matching key. -/
def tagsGet (raw : List Char) (indices : TagIndices) (key : List Char) :
    Option (List Char) :=
  (indices.find? fun kv => sl raw kv.1 == key).map fun kv => sl raw kv.2

/-- Modelled from the spec: `Tags::get_parsed::<u64>` — `none` when the tag is
absent, `some (error)` when present but unparsable, `some (ok n)` when it
parses. -/
def tagsGetParsedU64 (raw : List Char) (indices : TagIndices) (key : List Char) :
    Option (Except Unit Nat) :=
  (tagsGet raw indices key).map fun v =>
    match rustParseUnsigned u64max v with
    | some n => Except.ok n
    | none => Except.error ()

/-- Embedding of the `MessageError` variants the modelled records use. -/
inductive MessageError where
  | InvalidCommand
  | ExpectedData
  | ExpectedNick
  | ExpectedArg
  | CannotParseTag
deriving DecidableEq

/-- Outcome of running a fallible Rust function in the model: a value, a
returned error, or an aborted process (an index-out-of-bounds panic). -/
inductive Decoded (α : Type) where
  | ok (a : α)
  | err (e : MessageError)
  | panicked
deriving DecidableEq

/-- Modelled from the spec: one tokenized line (`IrcMessage`, crate `irc`
module, not under `src/`): the backing buffer, the tag index produced by
`parse_tags`, the nick part of the prefix (`expect_nick`), the command text,
the positional argument ranges (`expect_arg_index`) and the trailing-data
range (`expect_data_index`). -/
structure IrcMessage where
  raw : MaybeOwned
  tags : TagIndices
  nickIdx : Option Idx
  command : List Char
  args : List Idx
  dataIdx : Option Idx
deriving DecidableEq

/-- Embedding of `Ctcp` from `src/messages/privmsg.rs`. -/
inductive Ctcp where
  | Action
  | Unknown (command : List Char)
deriving DecidableEq

/-- Embedding of `Privmsg` from `src/messages/privmsg.rs`. -/
structure Privmsg where
  raw : MaybeOwned
  tags : TagIndices
  name : Idx
  channel : Idx
  data : Idx
  ctcpIdx : Option Idx
deriving DecidableEq

/-- Embedding of `Privmsg::name`. -/
def Privmsg.nameStr (p : Privmsg) : List Char :=
  sl p.raw.text p.name

/-- Embedding of `Privmsg::channel`. -/
def Privmsg.channelStr (p : Privmsg) : List Char :=
  sl p.raw.text p.channel

/-- Embedding of `Privmsg::data`. -/
def Privmsg.dataStr (p : Privmsg) : List Char :=
  sl p.raw.text p.data

/-- Embedding of `Privmsg::ctcp`: slice the stored CTCP range, map the
literal `ACTION` to the action variant and any other command to the unknown
variant. -/
def Privmsg.ctcp (p : Privmsg) : Option Ctcp :=
  p.ctcpIdx.map fun i =>
    let command := sl p.raw.text i
    if command = "ACTION".data then Ctcp.Action else Ctcp.Unknown command

/-- Embedding of `Privmsg::is_action`. -/
def Privmsg.is_action (p : Privmsg) : Bool :=
  p.ctcp = some Ctcp.Action

/-- Embedding of `Privmsg::from_irc` from `src/messages/privmsg.rs`: expect
the PRIVMSG command and a trailing-data range; when the data starts and ends
with the control byte `0x01`, look for a space in `data[1..len-1]` (a slice
that panics when the data is shorter than two characters), store the command
range and shrink the data range past the space and before the final control
byte, or fail with `ExpectedData` when no space exists; then require the
nick and the first positional argument. -/
def Privmsg.from_irc (msg : IrcMessage) : Decoded Privmsg :=
  if msg.command ≠ "PRIVMSG".data then Decoded.err MessageError.InvalidCommand
  else
    match msg.dataIdx with
    | none => Decoded.err MessageError.ExpectedData
    | some index =>
      let data := sl msg.raw.text index
      let finish : Idx → Option Idx → Decoded Privmsg := fun dataIdx ctcpIdx =>
        match msg.nickIdx with
        | none => Decoded.err MessageError.ExpectedNick
        | some name =>
          match msg.args.head? with
          | none => Decoded.err MessageError.ExpectedArg
          | some channel =>
            Decoded.ok (Privmsg.mk msg.raw msg.tags name channel dataIdx ctcpIdx)
      if data.head? = some (Char.ofNat 1) ∧ data.getLast? = some (Char.ofNat 1) then
        let len := data.length
        if len < 2 then Decoded.panicked
        else
          match ((data.drop 1).take (len - 2)).findIdx? fun c => c == ' ' with
          | some pos =>
            let head := index.first + 1
            finish (Idx.mk (index.first + pos + 2) (index.last - 1))
              (some (Idx.mk head (head + pos)))
          | none => Decoded.err MessageError.ExpectedData
      else finish index none

/-- Embedding of the `into_owned!` expansion for `Privmsg` (the macro itself
is not under `src/`; modelled from the spec: copy the backing bytes, leave
every stored offset untouched). -/
def Privmsg.intoOwned (p : Privmsg) : Privmsg :=
  Privmsg.mk p.raw.intoOwned p.tags p.name p.channel p.data p.ctcpIdx

/-- Embedding of `Whisper` from `src/messages/whisper.rs`. -/
structure Whisper where
  raw : MaybeOwned
  tags : TagIndices
  name : Idx
  data : Idx
deriving DecidableEq

/-- Embedding of `Whisper::name`. -/
def Whisper.nameStr (w : Whisper) : List Char :=
  sl w.raw.text w.name

/-- Embedding of `Whisper::data`. -/
def Whisper.dataStr (w : Whisper) : List Char :=
  sl w.raw.text w.data

/-- Embedding of `Whisper::from_irc` from `src/messages/whisper.rs`: expect
the WHISPER command, the sender nick and the trailing data; the recipient
argument is not retained. -/
def Whisper.from_irc (msg : IrcMessage) : Decoded Whisper :=
  if msg.command ≠ "WHISPER".data then Decoded.err MessageError.InvalidCommand
  else
    match msg.nickIdx with
    | none => Decoded.err MessageError.ExpectedNick
    | some name =>
      match msg.dataIdx with
      | none => Decoded.err MessageError.ExpectedData
      | some data => Decoded.ok (Whisper.mk msg.raw msg.tags name data)

/-- Embedding of the `into_owned!` expansion for `Whisper` (modelled from the
spec, as for `Privmsg`). -/
def Whisper.intoOwned (w : Whisper) : Whisper :=
  Whisper.mk w.raw.intoOwned w.tags w.name w.data

/-- Embedding of `RoomState` from `src/messages/room_state.rs`. -/
structure RoomState where
  raw : MaybeOwned
  tags : TagIndices
  channel : Idx
deriving DecidableEq

/-- Embedding of `RoomState::from_irc`: expect the ROOMSTATE command and the
first positional argument (the channel). -/
def RoomState.from_irc (msg : IrcMessage) : Decoded RoomState :=
  if msg.command ≠ "ROOMSTATE".data then Decoded.err MessageError.InvalidCommand
  else
    match msg.args.head? with
    | none => Decoded.err MessageError.ExpectedArg
    | some channel => Decoded.ok (RoomState.mk msg.raw msg.tags channel)

/-- Rust `Option::transpose` on an optional fallible tag value. -/
def rustTranspose {ε α : Type} : Option (Except ε α) → Except ε (Option α)
  | none => Except.ok none
  | some (Except.ok a) => Except.ok (some a)
  | some (Except.error e) => Except.error e

/-- Embedding of `RoomState::is_slow_mode` from `src/messages/room_state.rs`:
`get_parsed("slow").transpose().ok().flatten().filter(|&s| s > 0)`. -/
def RoomState.is_slow_mode (r : RoomState) : Option Nat :=
  (((rustTranspose (tagsGetParsedU64 r.raw.text r.tags "slow".data)).toOption).join).filter
    fun s => 0 < s

/-- Embedding of the `into_owned!` expansion for `RoomState` (modelled from
the spec, as for `Privmsg`). -/
def RoomState.intoOwned (r : RoomState) : RoomState :=
  RoomState.mk r.raw.intoOwned r.tags r.channel

/-- Modelled from the spec: `Color` (`src/twitch/color.rs` is not under
`src/`): a 24-bit RGB triple. -/
structure Color where
  red : Nat
  green : Nat
  blue : Nat
deriving DecidableEq

/-- Modelled from the spec: the default color is white. -/
def Color.default : Color := Color.mk 255 255 255

/-- Value of an ASCII hex digit. -/
def hexVal? (c : Char) : Option Nat :=
  if c.isDigit then some (c.toNat - 48)
  else if 'a' ≤ c ∧ c ≤ 'f' then some (c.toNat - 87)
  else if 'A' ≤ c ∧ c ≤ 'F' then some (c.toNat - 55)
  else none

/-- Modelled from the spec: `Color` parsing maps `#RRGGBB` to its 24-bit RGB
triple and rejects anything else. -/
def Color.fromStr (s : List Char) : Option Color :=
  match s with
  | ['#', r1, r2, g1, g2, b1, b2] =>
    (hexVal? r1).bind fun a => (hexVal? r2).bind fun b =>
    (hexVal? g1).bind fun c => (hexVal? g2).bind fun d =>
    (hexVal? b1).bind fun e => (hexVal? b2).map fun f =>
      Color.mk (a * 16 + b) (c * 16 + d) (e * 16 + f)
  | _ => none

/-- Embedding of `GlobalUserState` from `src/messages/global_user_state.rs`:
the tag index plus the eagerly extracted `user_id`, `display_name` and
`color` fields. -/
structure GlobalUserState where
  raw : MaybeOwned
  tags : TagIndices
  user_id : Option (List Char)
  display_name : Option (List Char)
  color : Color
deriving DecidableEq

/-- Embedding of `GlobalUserState::has_tags`: whether the tag index is
nonempty. -/
def GlobalUserState.has_tags (g : GlobalUserState) : Bool :=
  !g.tags.isEmpty

/-- Embedding of `GlobalUserState::emote_sets`: the comma-split `emote-sets`
tag value, defaulting to the one-element list `["0"]` when the tag is
absent. -/
def GlobalUserState.emote_sets (g : GlobalUserState) : List (List Char) :=
  match tagsGet g.raw.text g.tags "emote-sets".data with
  | some s => splitCh ',' s
  | none => ["0".data]

/-- Embedding of `GlobalUserState::from_irc` from
`src/messages/global_user_state.rs`: expect the GLOBALUSERSTATE command;
copy the `user-id` and `display-name` tag values when present; parse the
`color` tag when present and nonempty, failing on a malformed value and
defaulting to white otherwise. -/
def GlobalUserState.from_irc (msg : IrcMessage) : Decoded GlobalUserState :=
  if msg.command ≠ "GLOBALUSERSTATE".data then
    Decoded.err MessageError.InvalidCommand
  else
    let user_id := tagsGet msg.raw.text msg.tags "user-id".data
    let display_name := tagsGet msg.raw.text msg.tags "display-name".data
    match (tagsGet msg.raw.text msg.tags "color".data).filter fun s => !s.isEmpty with
    | none =>
      Decoded.ok (GlobalUserState.mk msg.raw msg.tags user_id display_name Color.default)
    | some s =>
      match Color.fromStr s with
      | none => Decoded.err MessageError.CannotParseTag
      | some c =>
        Decoded.ok (GlobalUserState.mk msg.raw msg.tags user_id display_name c)

/-- Embedding of the `into_owned!` expansion for `GlobalUserState` (modelled
from the spec, as for `Privmsg`). -/
def GlobalUserState.intoOwned (g : GlobalUserState) : GlobalUserState :=
  GlobalUserState.mk g.raw.intoOwned g.tags g.user_id g.display_name g.color

/-- Modelled from the spec: the current `Badge` enum (the revision of
`src/twitch/badge.rs` under `src/` is superseded; its replacement, used by
the message records, is not included). Subscriber badges split into a
tiered and a months-only variant, bits badges carry their count, and an
unrecognized badge keeps its name and its trailing number. -/
inductive Badge where
  | Admin
  | Broadcaster
  | GlobalMod
  | Moderator
  | Staff
  | Turbo
  | Premium
  | Vip
  | Partner
  | Bits (count : Nat)
  | NoTierSubscriber (months : Nat)
  | TierSubscriber (tier : Nat) (months : Nat)
  | Unknown (name : List Char) (version : Nat)
deriving DecidableEq

/-- The badge names with a dedicated plain variant. -/
def plainBadgeOf (name : List Char) : Option Badge :=
  if name = "admin".data then some Badge.Admin
  else if name = "broadcaster".data then some Badge.Broadcaster
  else if name = "global_mod".data then some Badge.GlobalMod
  else if name = "moderator".data then some Badge.Moderator
  else if name = "staff".data then some Badge.Staff
  else if name = "turbo".data then some Badge.Turbo
  else if name = "premium".data then some Badge.Premium
  else if name = "vip".data then some Badge.Vip
  else if name = "partner".data then some Badge.Partner
  else none

/-- Modelled from the spec: decoding of one badge item `name/data`. A
subscriber badge whose data is a tier digit concatenated with a zero-padded
trailing months group of at least two digits becomes the tiered variant,
any other subscriber data is read as plain months; `bits` carries its
count; names with a dedicated variant map to it; any other name keeps the
name and its trailing number. -/
def Badge.parse (s : List Char) : Option Badge :=
  (split_pair s '/').bind fun p =>
    let name := p.1
    let data := p.2
    if name = "subscriber".data then
      match data with
      | [] => none
      | t :: rest =>
        if t.isDigit ∧ 2 ≤ rest.length ∧ rest.all Char.isDigit then
          some (Badge.TierSubscriber (t.toNat - 48) (natOfDigits rest))
        else (rustParseUnsigned u64max data).map Badge.NoTierSubscriber
    else if name = "bits".data then
      (rustParseUnsigned u64max data).map Badge.Bits
    else
      match plainBadgeOf name with
      | some b => some b
      | none => (rustParseUnsigned u64max data).map (Badge.Unknown name)

/-- Modelled from the spec: `Emote` (the `Attribution` revision of the
framework used by `src/twitch/emotes.rs` is not under `src/`): a numeric
emote id and the character ranges where it occurs. -/
structure Emote where
  id : Nat
  ranges : List MsgRange
deriving DecidableEq

/-- Modelled from the spec: one `start-end` character range of an emote
entry, both endpoints parsed as `u16`. -/
def parseRangeU16 (s : List Char) : Option MsgRange :=
  (split_pair s '-').bind fun p =>
    (rustParseUnsigned u16max p.1).bind fun a =>
      (rustParseUnsigned u16max p.2).map fun b => (a, b)

/-- Modelled from the spec: one emote entry `id:range1,range2,...`; the entry
is dropped when the id does not parse, malformed ranges are dropped without
discarding the entry. -/
def Emote.parseItem (piece : List Char) : Option Emote :=
  (split_pair piece ':').bind fun p =>
    (rustParseUnsigned u64max p.1).map fun id =>
      Emote.mk id ((splitCh ',' p.2).filterMap parseRangeU16)

/-- Modelled from the spec: decoding of a whole `emotes` tag value, entries
separated by `/`, survivors kept in appearance order. -/
def parseEmoteVec (s : List Char) : List Emote :=
  (splitCh '/' s).filterMap Emote.parseItem

/-- Applying a function under a successful decode outcome. -/
def Decoded.map {α β : Type} (f : α → β) : Decoded α → Decoded β
  | .ok a => .ok (f a)
  | .err e => .err e
  | .panicked => .panicked

instance {ε α : Type} [DecidableEq ε] [DecidableEq α] :
    DecidableEq (Except ε α) := fun a b =>
  match a, b with
  | .ok x, .ok y =>
    if h : x = y then isTrue (by rw [h]) else isFalse (by intro hc; cases hc; exact h rfl)
  | .error x, .error y =>
    if h : x = y then isTrue (by rw [h]) else isFalse (by intro hc; cases hc; exact h rfl)
  | .ok _, .error _ => isFalse (by intro hc; cases hc)
  | .error _, .ok _ => isFalse (by intro hc; cases hc)

/-- A tokenized PRIVMSG line with the given trailing data, used for the
concrete CTCP evaluations: the line is
`:test!user@host PRIVMSG #museun :` followed by the trailing data, with the
nick at offsets 1..5, the channel argument at 24..31 and the trailing data
starting at offset 33. -/
def privmsgLine (trailing : List Char) : IrcMessage :=
  let raw := ":test!user@host PRIVMSG #museun :".data ++ trailing
  IrcMessage.mk (MaybeOwned.Borrowed raw) [] (some (Idx.mk 1 5)) "PRIVMSG".data
    [Idx.mk 24 31] (some (Idx.mk 33 (33 + trailing.length)))

/-- A tokenized GLOBALUSERSTATE line carrying no tags. -/
def gusLineNoTags : IrcMessage :=
  IrcMessage.mk (MaybeOwned.Borrowed ":tmi.twitch.tv GLOBALUSERSTATE".data) []
    none "GLOBALUSERSTATE".data [] none

theorem splitCh_eq_cons (sep : Char) (s : List Char) :
    splitCh sep s = s.takeWhile (fun c => c ≠ sep) ::
      (match s.dropWhile (fun c => c ≠ sep) with
        | [] => ([] : List (List Char))
        | _ :: rest => splitCh sep rest) := by
  induction s with
  | nil => rfl
  | cons c cs ih =>
    by_cases hc : c = sep
    · subst hc
      simp [splitCh, List.takeWhile_cons, List.dropWhile_cons]
    · simp only [splitCh, if_neg hc, ih]
      simp [List.takeWhile_cons, List.dropWhile_cons, hc]

theorem split_pair_eq (s : List Char) (sep : Char) :
    split_pair s sep =
      some (s.takeWhile (fun c => c ≠ sep),
        ((s.dropWhile (fun c => c ≠ sep)).drop 1).takeWhile (fun c => c ≠ sep)) := by
  unfold split_pair
  rw [splitCh_eq_cons]
  cases h : s.dropWhile (fun c => c ≠ sep) with
  | nil => simp
  | cons x rest => simp [splitCh_eq_cons sep rest]

theorem takeWhile_ne_of_not_mem (sep : Char) (s : List Char) (h : sep ∉ s) :
    s.takeWhile (fun c => c ≠ sep) = s := by
  induction s with
  | nil => rfl
  | cons c cs ih =>
    have hc : ¬ c = sep := by
      intro he
      rw [he] at h
      exact h (List.mem_cons_self sep cs)
    have hrest : sep ∉ cs := fun hm => h (List.mem_cons_of_mem c hm)
    rw [List.takeWhile_cons, if_pos (decide_eq_true hc)]
    exact congrArg (List.cons c) (ih hrest)

theorem dropWhile_ne_of_not_mem (sep : Char) (s : List Char) (h : sep ∉ s) :
    s.dropWhile (fun c => c ≠ sep) = [] := by
  induction s with
  | nil => rfl
  | cons c cs ih =>
    have hc : ¬ c = sep := by
      intro he
      rw [he] at h
      exact h (List.mem_cons_self sep cs)
    have hrest : sep ∉ cs := fun hm => h (List.mem_cons_of_mem c hm)
    rw [List.dropWhile_cons, if_pos (decide_eq_true hc)]
    exact ih hrest

theorem foldl_digits_ge (ds : List Char) (a : Nat) :
    a ≤ ds.foldl (fun x c => x * 10 + (c.toNat - 48)) a := by
  induction ds generalizing a with
  | nil => exact Nat.le_refl a
  | cons c rest ih =>
    calc a ≤ a * 10 + (c.toNat - 48) := by omega
    _ ≤ _ := ih (a * 10 + (c.toNat - 48))

theorem parseUnsignedGo_eq_some (max : Nat) (ds : List Char) :
    ∀ acc n, acc ≤ max →
      (parseUnsignedGo max acc ds = some n ↔
        (ds.all Char.isDigit ∧
          n = ds.foldl (fun x c => x * 10 + (c.toNat - 48)) acc ∧ n ≤ max)) := by
  induction ds with
  | nil =>
    intro acc n hacc
    constructor
    · intro hsome
      have : acc = n := by
        simpa [parseUnsignedGo] using hsome
      exact ⟨rfl, this.symm, this ▸ hacc⟩
    · intro hsh
      simp [parseUnsignedGo, hsh.2.1]
  | cons c rest ih =>
    intro acc n hacc
    by_cases hd : c.isDigit
    · by_cases hle : acc * 10 + (c.toNat - 48) ≤ max
      · rw [show parseUnsignedGo max acc (c :: rest) =
            parseUnsignedGo max (acc * 10 + (c.toNat - 48)) rest by
          simp [parseUnsignedGo, digit?, hd, hle]]
        rw [ih _ n hle]
        simp [List.all_cons, hd, List.foldl_cons]
      · rw [show parseUnsignedGo max acc (c :: rest) = none by
          simp [parseUnsignedGo, digit?, hd, hle]]
        simp only [List.all_cons, List.foldl_cons]
        constructor
        · intro hc
          exact absurd hc (by simp)
        · intro hsh
          have hge := foldl_digits_ge rest (acc * 10 + (c.toNat - 48))
          rw [← hsh.2.1] at hge
          omega
    · rw [show parseUnsignedGo max acc (c :: rest) = none by
        simp [parseUnsignedGo, digit?, hd]]
      simp [List.all_cons, hd]

theorem rustParseUnsigned_eq_some (max : Nat) (cs : List Char) (n : Nat) :
    rustParseUnsigned max cs = some n ↔
      ∃ ds, (cs = '+' :: ds ∨ cs = ds) ∧ ds ≠ [] ∧ ds.all Char.isDigit ∧
        natOfDigits ds = n ∧ n ≤ max := by
  have plusNotDigit : ('+').isDigit = false := by decide
  by_cases hplus : cs.head? = some '+'
  · obtain ⟨tail, rfl⟩ : ∃ t, cs = '+' :: t := by
      cases cs with
      | nil => simp at hplus
      | cons c r =>
        have : c = '+' := by simpa using hplus
        exact ⟨r, by rw [this]⟩
    rw [show rustParseUnsigned max ('+' :: tail) =
        (if tail.isEmpty then none else parseUnsignedGo max 0 tail) by
      simp [rustParseUnsigned]]
    by_cases hempty : tail = []
    · subst hempty
      simp only [List.isEmpty_nil, if_true]
      constructor
      · intro hc
        exact absurd hc (by simp)
      · rintro ⟨ds, hshape, hne, hdig, hval, hle⟩
        rcases hshape with hshape | hshape
        · have : ds = [] := by simpa using hshape
          exact absurd this hne
        · rw [← hshape] at hdig
          simp [plusNotDigit] at hdig
    · rw [if_neg (by simpa [List.isEmpty_iff] using hempty)]
      rw [parseUnsignedGo_eq_some max tail 0 n (Nat.zero_le max)]
      constructor
      · rintro ⟨hdig, hval, hle⟩
        exact ⟨tail, Or.inl rfl, hempty, hdig, hval.symm, hle⟩
      · rintro ⟨ds, hshape, hne, hdig, hval, hle⟩
        rcases hshape with hshape | hshape
        · have : ds = tail := by simpa using hshape.symm
          subst this
          exact ⟨hdig, hval.symm, hle⟩
        · rw [← hshape] at hdig
          simp [plusNotDigit] at hdig
  · rw [show rustParseUnsigned max cs =
        (if cs.isEmpty then none else parseUnsignedGo max 0 cs) by
      simp [rustParseUnsigned, hplus]]
    by_cases hempty : cs = []
    · subst hempty
      simp only [List.isEmpty_nil, if_true]
      constructor
      · intro hc
        exact absurd hc (by simp)
      · rintro ⟨ds, hshape, hne, hdig, hval, hle⟩
        rcases hshape with hshape | hshape
        · exact absurd hshape (by simp)
        · exact absurd hshape.symm hne
    · rw [if_neg (by simpa [List.isEmpty_iff] using hempty)]
      rw [parseUnsignedGo_eq_some max cs 0 n (Nat.zero_le max)]
      constructor
      · rintro ⟨hdig, hval, hle⟩
        exact ⟨cs, Or.inr rfl, hempty, hdig, hval.symm, hle⟩
      · rintro ⟨ds, hshape, hne, hdig, hval, hle⟩
        rcases hshape with hshape | hshape
        · rw [hshape] at hplus
          simp at hplus
        · subst hshape
          exact ⟨hdig, hval.symm, hle⟩

/-- C7: decoding the emotes tag value `25:0-5,14-19` yields exactly one emote
with id 25 and the two ranges (0,5) and (14,19), in that appearance order. -/
theorem claim_C7 :
    parseEmoteVec "25:0-5,14-19".data = [Emote.mk 25 [(0, 5), (14, 19)]] := by
  decide

/-- C2, concrete behaviour of `Privmsg::from_irc` on 0x01-wrapped trailing
data: `\x01ACTION hello\x01` decodes with data `hello` and CTCP kind Action,
`\x01FOO hi\x01` decodes with data `hi` and CTCP kind Unknown `FOO`,
`\x01FOOBAR\x01` (no interior space) is the `ExpectedData` decode error, and
the one-character data `\x01` — which starts and ends with the control byte,
so the claim as stated requires a decode error — makes the code slice
`data[1..0]` and abort with an index panic instead of returning an error. -/
theorem claim_C2 :
    (Privmsg.from_irc (privmsgLine "\x01ACTION hello\x01".data)).map Privmsg.dataStr =
      Decoded.ok "hello".data ∧
    (Privmsg.from_irc (privmsgLine "\x01ACTION hello\x01".data)).map Privmsg.ctcp =
      Decoded.ok (some Ctcp.Action) ∧
    (Privmsg.from_irc (privmsgLine "\x01FOO hi\x01".data)).map Privmsg.dataStr =
      Decoded.ok "hi".data ∧
    (Privmsg.from_irc (privmsgLine "\x01FOO hi\x01".data)).map Privmsg.ctcp =
      Decoded.ok (some (Ctcp.Unknown "FOO".data)) ∧
    Privmsg.from_irc (privmsgLine "\x01FOOBAR\x01".data) =
      Decoded.err MessageError.ExpectedData ∧
    Privmsg.from_irc (privmsgLine "\x01".data) = Decoded.panicked := by
  decide

/-- C9: `split_pair` never returns `none`; its first component is the text
before the first occurrence of the separator and its second component the
text between the first and second occurrences; when the separator does not
occur the result is the whole input paired with the empty string. -/
theorem claim_C9 (s : List Char) (sep : Char) :
    split_pair s sep =
      some (s.takeWhile (fun c => c ≠ sep),
        ((s.dropWhile (fun c => c ≠ sep)).drop 1).takeWhile (fun c => c ≠ sep)) ∧
    (sep ∉ s → split_pair s sep = some (s, [])) := by
  refine ⟨split_pair_eq s sep, fun h => ?_⟩
  rw [split_pair_eq, takeWhile_ne_of_not_mem sep s h, dropWhile_ne_of_not_mem sep s h]
  rfl

/-- Witness for C9 at a concrete separator-free input. -/
theorem claim_C9_witness : split_pair "ab".data ':' = some ("ab".data, []) :=
  (claim_C9 "ab".data ':').2 (by decide)

/-- Counterexample to C1 as stated: on the entry `0-1:A.1:9`, which contains
the reference separator twice, the source keeps the score `A.1` (attrs-text
is the text between the first and second `:` only), while the claim's
split-once reading hands `A.1:9` to the score parser, which rejects it. -/
theorem claim_C1_counterexample :
    Flag.parse "0-1:A.1:9".data ≠ Flag.parseClaimC1 "0-1:A.1:9".data := by
  decide

theorem takeWhile_append_all (p : Char → Bool) (xs ys : List Char)
    (h : ∀ c ∈ xs, p c = true) :
    (xs ++ ys).takeWhile p = xs ++ ys.takeWhile p := by
  induction xs with
  | nil => rfl
  | cons c cs ih =>
    have hc := h c (List.mem_cons_self c cs)
    have hrest : ∀ d ∈ cs, p d = true := fun d hd => h d (List.mem_cons_of_mem c hd)
    simp [List.takeWhile_cons, hc, ih hrest]

theorem dropWhile_append_all (p : Char → Bool) (xs ys : List Char)
    (h : ∀ c ∈ xs, p c = true) :
    (xs ++ ys).dropWhile p = ys.dropWhile p := by
  induction xs with
  | nil => rfl
  | cons c cs ih =>
    have hc := h c (List.mem_cons_self c cs)
    have hrest : ∀ d ∈ cs, p d = true := fun d hd => h d (List.mem_cons_of_mem c hd)
    simp [List.dropWhile_cons, hc, ih hrest]

theorem parse_item_flag_eq (piece : List Char) :
    parse_item Flag.impl piece =
      (parse_ranges Flag.impl.sepInfo (piece.takeWhile fun c => c ≠ ':')).head?.map
        fun r => Flag.mk r
          ((splitCh '/' (((piece.dropWhile fun c => c ≠ ':').drop 1).takeWhile
            fun c => c ≠ ':')).filterMap Score.fromStr) := by
  unfold parse_item
  rw [show Flag.impl.sepInfo.range_attribute_separator = ':' from rfl]
  rw [split_pair_eq]
  simp only [Option.some_bind]
  rfl

/-- C1 (amended): decoding a tag value through the attribution framework at
`Flag` follows the claim's algorithm with attrs-text read as the text
between the first and second occurrence of the reference separator: split on
the entry separator; parse each piece's ref-text leniently, dropping the
whole entry (without any error) exactly when no range parses; split
attrs-text on the attribute separator and parse each attribute
independently, dropping failures while keeping the entry; collect survivors
in appearance order, so one malformed entry never removes other valid
entries. -/
theorem claim_C1 (input : List Char) :
    Flag.parse input = Flag.parseAmendedC1 input := by
  unfold Flag.parse attrParse Flag.parseAmendedC1
  rw [show Flag.impl.sepInfo.element_separator = ',' from rfl]
  have hfn : parse_item Flag.impl = fun piece =>
      (parse_ranges Flag.impl.sepInfo (piece.takeWhile fun c => c ≠ ':')).head?.map
        fun r => Flag.mk r
          ((splitCh '/' (((piece.dropWhile fun c => c ≠ ':').drop 1).takeWhile
            fun c => c ≠ ':')).filterMap Score.fromStr) :=
    funext parse_item_flag_eq
  rw [hfn]

/-- C3: badge decoding maps `subscriber/6` to the months-only subscriber
badge, `subscriber/3001` to the tiered badge (tier 3, month 1) via the
tier-digit-plus-zero-padded-months match, `bits/100` to a bits badge with
count 100, and any unrecognized badge name to the Unknown variant carrying
the name and its trailing number. -/
theorem claim_C3 :
    Badge.parse "subscriber/6".data = some (Badge.NoTierSubscriber 6) ∧
    Badge.parse "subscriber/3001".data = some (Badge.TierSubscriber 3 1) ∧
    Badge.parse "bits/100".data = some (Badge.Bits 100) ∧
    ∀ name ver : List Char, plainBadgeOf name = none → name ≠ "subscriber".data →
      name ≠ "bits".data → '/' ∉ name → '/' ∉ ver →
      Badge.parse (name ++ '/' :: ver) =
        (rustParseUnsigned u64max ver).map (Badge.Unknown name) := by
  refine ⟨by decide, by decide, by decide, ?_⟩
  intro name ver hplain hsub hbits hname hver
  have hall : ∀ c ∈ name, (fun c => decide (c ≠ '/')) c = true := fun c hc =>
    decide_eq_true fun he => hname (he ▸ hc)
  have h1 : (name ++ '/' :: ver).takeWhile (fun c => c ≠ '/') = name := by
    rw [takeWhile_append_all _ name ('/' :: ver) hall,
      List.takeWhile_cons, if_neg (by simp), List.append_nil]
  have h2 : (((name ++ '/' :: ver).dropWhile (fun c => c ≠ '/')).drop 1).takeWhile
      (fun c => c ≠ '/') = ver := by
    rw [dropWhile_append_all _ name ('/' :: ver) hall,
      List.dropWhile_cons, if_neg (by simp), List.drop_succ_cons, List.drop_zero]
    exact takeWhile_ne_of_not_mem '/' ver hver
  unfold Badge.parse
  rw [split_pair_eq, h1, h2]
  simp only [Option.some_bind]
  rw [if_neg hsub, if_neg hbits, hplain]

/-- Witness for C3's universal part at a concrete unrecognized badge. -/
theorem claim_C3_witness :
    Badge.parse ("this_badge".data ++ '/' :: "2".data) =
      some (Badge.Unknown "this_badge".data 2) := by
  have h := claim_C3.2.2.2 "this_badge".data "2".data (by decide) (by decide)
    (by decide) (by decide) (by decide)
  rw [h]
  decide

/-- Counterexample to C4 as stated: the numeral of `2 ^ 60` is a positive
decimal integer, but the computed duration is `2 ^ 60 * 86400` reduced
modulo `2 ^ 64` (the multiplication wraps in `u64`), not exactly
`2 ^ 60 * 86400` seconds.  (The code also accepts non-canonical numerals
such as `"00"`, which the claim consigns to the error case.) -/
theorem claim_C4_counterexample : ¬ claimC4Statement := by
  intro h
  have h3 := h.2.2.1 "1152921504606846976".data (2 ^ 60) (by unfold reprPos; decide)
  have heval : FollowersOnly.from_str "1152921504606846976".data =
      Except.ok (FollowersOnly.Limit ((2 ^ 60 * 86400) % 2 ^ 64)) := by decide
  rw [h3] at heval
  have hlim := Except.ok.inj heval
  exact absurd hlim (by decide)

/-- C4 (amended): `"-1"` maps to Disabled and `"0"` to All; any other string
accepted by unsigned 64-bit decimal parsing (one or more digits, optionally
prefixed by `+`, value at most `u64::MAX` — including zero-valued strings
such as `"00"` or `"+0"`) maps to Limit with `n * 86400` seconds computed in
wrapping 64-bit arithmetic; every other input is a parse error. -/
theorem claim_C4 (s : List Char) (r : FollowersOnly) :
    FollowersOnly.from_str s = Except.ok r ↔
      (s = "-1".data ∧ r = FollowersOnly.Disabled) ∨
      (s = "0".data ∧ r = FollowersOnly.All) ∨
      (s ≠ "-1".data ∧ s ≠ "0".data ∧
        ∃ ds n, (s = '+' :: ds ∨ s = ds) ∧ ds ≠ [] ∧ ds.all Char.isDigit ∧
          natOfDigits ds = n ∧ n ≤ u64max ∧
          r = FollowersOnly.Limit ((n * 86400) % 2 ^ 64)) := by
  unfold FollowersOnly.from_str
  by_cases h1 : s = "-1".data
  · rw [if_pos h1]
    constructor
    · intro hr
      exact Or.inl ⟨h1, (Except.ok.inj hr).symm⟩
    · rintro (⟨hs, hr⟩ | ⟨hs, hr⟩ | ⟨hs, _⟩)
      · rw [hr]
      · rw [h1] at hs
        exact absurd hs (by decide)
      · exact absurd h1 hs
  · rw [if_neg h1]
    by_cases h2 : s = "0".data
    · rw [if_pos h2]
      constructor
      · intro hr
        exact Or.inr (Or.inl ⟨h2, (Except.ok.inj hr).symm⟩)
      · rintro (⟨hs, hr⟩ | ⟨hs, hr⟩ | ⟨_, hs, _⟩)
        · exact absurd hs h1
        · rw [hr]
        · exact absurd h2 hs
    · rw [if_neg h2]
      cases hp : rustParseUnsigned u64max s with
      | none =>
        constructor
        · intro hc
          exact absurd hc (by simp)
        · rintro (⟨hs, _⟩ | ⟨hs, _⟩ | ⟨_, _, ds, n, hshape, hne, hdig, hval, hle, _⟩)
          · exact absurd hs h1
          · exact absurd hs h2
          · have : rustParseUnsigned u64max s = some n :=
              (rustParseUnsigned_eq_some u64max s n).mpr ⟨ds, hshape, hne, hdig, hval, hle⟩
            rw [hp] at this
            exact absurd this (by simp)
      | some n =>
        constructor
        · intro hr
          obtain ⟨ds, hshape, hne, hdig, hval, hle⟩ :=
            (rustParseUnsigned_eq_some u64max s n).mp hp
          exact Or.inr (Or.inr ⟨h1, h2,
            ds, n, hshape, hne, hdig, hval, hle, (Except.ok.inj hr).symm⟩)
        · rintro (⟨hs, _⟩ | ⟨hs, _⟩ | ⟨_, _, ds, m, hshape, hne, hdig, hval, hle, hr⟩)
          · exact absurd hs h1
          · exact absurd hs h2
          · have : rustParseUnsigned u64max s = some m :=
              (rustParseUnsigned_eq_some u64max s m).mpr ⟨ds, hshape, hne, hdig, hval, hle⟩
            rw [hp] at this
            rw [hr, Option.some.inj this]

/-- Witness for C4's amended characterisation at the input `"4"`. -/
theorem claim_C4_witness :
    FollowersOnly.from_str "4".data = Except.ok (FollowersOnly.Limit 345600) := by
  have h := (claim_C4 "4".data (FollowersOnly.Limit 345600)).mpr
    (Or.inr (Or.inr ⟨by decide, by decide, "4".data, 4, Or.inr rfl, by decide,
      by decide, by decide, by decide, by decide⟩))
  exact h

/-- Counterexample to C5 as stated: `A.10` parses successfully (the severity
is read as a `u8`, so 10 is accepted), although its severity is not a single
digit in 0–9 and the string does not have the claimed `TYPE.SEVERITY`
shape. -/
theorem claim_C5_counterexample :
    (Score.fromStr "A.10".data).isSome = true ∧
    scoreShapeClaimC5 "A.10".data = false := by
  decide

/-- C5 (amended): a flag score string parses successfully exactly when the
piece before the first `.` is one of the four letters A, I, P, S and the
piece between the first and second `.` (pieces after a second `.` are
ignored) is a nonempty digit string, optionally prefixed by `+`, whose value
is at most 255 — not only the single digits 0–9. -/
theorem claim_C5 (s : List Char) (sc : Score) :
    Score.fromStr s = some sc ↔
      ∃ ty n,
        ((s.takeWhile (fun c => c ≠ '.') = "A".data ∧ ty = ScoreType.Aggressive) ∨
         (s.takeWhile (fun c => c ≠ '.') = "I".data ∧ ty = ScoreType.Identity) ∨
         (s.takeWhile (fun c => c ≠ '.') = "P".data ∧ ty = ScoreType.Profanity) ∨
         (s.takeWhile (fun c => c ≠ '.') = "S".data ∧ ty = ScoreType.Sexual)) ∧
        (∃ ds, (((s.dropWhile (fun c => c ≠ '.')).drop 1).takeWhile (fun c => c ≠ '.')
            = '+' :: ds ∨
          ((s.dropWhile (fun c => c ≠ '.')).drop 1).takeWhile (fun c => c ≠ '.') = ds) ∧
          ds ≠ [] ∧ ds.all Char.isDigit ∧ natOfDigits ds = n ∧ n ≤ 255) ∧
        sc = Score.mk ty n := by
  unfold Score.fromStr
  rw [split_pair_eq]
  simp only [Option.some_bind]
  rw [Option.bind_eq_some]
  constructor
  · rintro ⟨a, hifc, hmap⟩
    obtain ⟨v, hv, hmk⟩ := Option.map_eq_some'.mp hmap
    obtain ⟨ds, hshape, hne, hdig, hval, hle⟩ :=
      (rustParseUnsigned_eq_some u8max _ v).mp hv
    refine ⟨a, v, ?_, ⟨ds, hshape, hne, hdig, hval, by simpa [u8max] using hle⟩, hmk.symm⟩
    split_ifs at hifc with hA hI hP hS
    · exact Or.inl ⟨hA, (Option.some.inj hifc).symm⟩
    · exact Or.inr (Or.inl ⟨hI, (Option.some.inj hifc).symm⟩)
    · exact Or.inr (Or.inr (Or.inl ⟨hP, (Option.some.inj hifc).symm⟩))
    · exact Or.inr (Or.inr (Or.inr ⟨hS, (Option.some.inj hifc).symm⟩))
  · rintro ⟨ty, n, hty, ⟨ds, hshape, hne, hdig, hval, hle⟩, hsc⟩
    have hrust : rustParseUnsigned u8max
        (((s.dropWhile (fun c => c ≠ '.')).drop 1).takeWhile (fun c => c ≠ '.'))
        = some n :=
      (rustParseUnsigned_eq_some u8max _ n).mpr
        ⟨ds, hshape, hne, hdig, hval, by simpa [u8max] using hle⟩
    have hmap : (rustParseUnsigned u8max
        (((s.dropWhile (fun c => c ≠ '.')).drop 1).takeWhile (fun c => c ≠ '.'))).map
          (fun v => Score.mk ty v) = some sc := by
      rw [hrust, hsc]
      rfl
    rcases hty with ⟨hA, rfl⟩ | ⟨hI, rfl⟩ | ⟨hP, rfl⟩ | ⟨hS, rfl⟩
    · exact ⟨ScoreType.Aggressive, by rw [hA, if_pos rfl], hmap⟩
    · exact ⟨ScoreType.Identity,
        by rw [hI, if_neg (by decide), if_pos rfl], hmap⟩
    · exact ⟨ScoreType.Profanity,
        by rw [hP, if_neg (by decide), if_neg (by decide), if_pos rfl], hmap⟩
    · exact ⟨ScoreType.Sexual,
        by rw [hS, if_neg (by decide), if_neg (by decide), if_neg (by decide),
          if_pos rfl], hmap⟩

/-- Witness for C5's amended characterisation at the input `P.3`. -/
theorem claim_C5_witness :
    Score.fromStr "P.3".data = some (Score.mk ScoreType.Profanity 3) :=
  (claim_C5 "P.3".data (Score.mk ScoreType.Profanity 3)).mpr
    ⟨ScoreType.Profanity, 3, Or.inr (Or.inr (Or.inl ⟨by decide, rfl⟩)),
      ⟨"3".data, Or.inr (by decide), by decide, by decide, by decide, by decide⟩, rfl⟩

/-- C6: for every GLOBALUSERSTATE line carrying no tags, construction
succeeds and the record reports `has_tags` false, the default emote-set list
containing only `"0"`, the default white color, and neither a user id nor a
display name. -/
theorem claim_C6 (msg : IrcMessage)
    (hcmd : msg.command = "GLOBALUSERSTATE".data) (htags : msg.tags = []) :
    ∃ g, GlobalUserState.from_irc msg = Decoded.ok g ∧
      g.has_tags = false ∧ g.emote_sets = ["0".data] ∧ g.color = Color.default ∧
      g.user_id = none ∧ g.display_name = none := by
  refine ⟨GlobalUserState.mk msg.raw [] none none Color.default, ?_, rfl, rfl, rfl, rfl, rfl⟩
  unfold GlobalUserState.from_irc
  rw [hcmd, htags, if_neg (by simp)]
  rfl

/-- Witness for C6 at a concrete tag-less GLOBALUSERSTATE line. -/
theorem claim_C6_witness :
    ∃ g, GlobalUserState.from_irc gusLineNoTags = Decoded.ok g ∧
      g.has_tags = false ∧ g.emote_sets = ["0".data] ∧ g.color = Color.default ∧
      g.user_id = none ∧ g.display_name = none :=
  claim_C6 gusLineNoTags rfl rfl

/-- C10: `RoomState::is_slow_mode` returns `some n` exactly when the `slow`
tag is present, its value parses as an unsigned 64-bit integer `n`, and
`n > 0`; a missing tag, an unparsable value and the value 0 all collapse to
`none`. -/
theorem claim_C10 (r : RoomState) (n : Nat) :
    r.is_slow_mode = some n ↔
      (∃ v, tagsGet r.raw.text r.tags "slow".data = some v ∧
        rustParseUnsigned u64max v = some n) ∧ 0 < n := by
  unfold RoomState.is_slow_mode tagsGetParsedU64
  cases htg : tagsGet r.raw.text r.tags "slow".data with
  | none => simp [rustTranspose, Option.filter, Except.toOption, Option.join]
  | some v =>
    cases hp : rustParseUnsigned u64max v with
    | none => simp [rustTranspose, hp, Option.filter, Except.toOption, Option.join]
    | some m =>
      by_cases hm : 0 < m
      · simp [rustTranspose, hp, Option.filter, Except.toOption, Option.join, hm]
        omega
      · simp [rustTranspose, hp, Option.filter, Except.toOption, Option.join, hm]
        omega

/-- Witness for C10 at a concrete room state whose `slow` tag value is 5. -/
theorem claim_C10_witness :
    (RoomState.mk (MaybeOwned.Borrowed "@slow=5 :tmi.twitch.tv ROOMSTATE #dallas".data)
      [(Idx.mk 1 5, Idx.mk 6 7)] (Idx.mk 31 38)).is_slow_mode = some 5 :=
  (claim_C10 (RoomState.mk
      (MaybeOwned.Borrowed "@slow=5 :tmi.twitch.tv ROOMSTATE #dallas".data)
      [(Idx.mk 1 5, Idx.mk 6 7)] (Idx.mk 31 38)) 5).mpr
    ⟨⟨"5".data, by decide, by decide⟩, by decide⟩

/-- C8: converting a borrowed record to its owned copy changes no accessor
result: the conversion copies the backing text and leaves every stored
offset untouched, so name, channel, data, CTCP and every tag lookup give
identical results on the owned copy, for Privmsg, Whisper, RoomState and
GlobalUserState alike. -/
theorem claim_C8 (p : Privmsg) (w : Whisper) (r : RoomState)
    (g : GlobalUserState) (key : List Char) :
    p.intoOwned.nameStr = p.nameStr ∧
    p.intoOwned.channelStr = p.channelStr ∧
    p.intoOwned.dataStr = p.dataStr ∧
    p.intoOwned.ctcp = p.ctcp ∧
    p.intoOwned.is_action = p.is_action ∧
    tagsGet p.intoOwned.raw.text p.intoOwned.tags key =
      tagsGet p.raw.text p.tags key ∧
    w.intoOwned.nameStr = w.nameStr ∧
    w.intoOwned.dataStr = w.dataStr ∧
    tagsGet w.intoOwned.raw.text w.intoOwned.tags key =
      tagsGet w.raw.text w.tags key ∧
    r.intoOwned.is_slow_mode = r.is_slow_mode ∧
    g.intoOwned.has_tags = g.has_tags ∧
    g.intoOwned.emote_sets = g.emote_sets ∧
    g.intoOwned.user_id = g.user_id ∧
    g.intoOwned.display_name = g.display_name ∧
    g.intoOwned.color = g.color := by
  have htext : ∀ m : MaybeOwned, m.intoOwned.text = m.text := fun m => by
    cases m <;> rfl
  refine ⟨?_, ?_, ?_, ?_, ?_, ?_, ?_, ?_, ?_, ?_, ?_, ?_, ?_, ?_, ?_⟩ <;>
    simp [Privmsg.intoOwned, Whisper.intoOwned, RoomState.intoOwned,
      GlobalUserState.intoOwned, Privmsg.nameStr, Privmsg.channelStr,
      Privmsg.dataStr, Privmsg.ctcp, Privmsg.is_action, Whisper.nameStr,
      Whisper.dataStr, RoomState.is_slow_mode, GlobalUserState.has_tags,
      GlobalUserState.emote_sets, htext]

end Twitchchat
